import Mathlib

/-!
Verification of the agent-gui wrapper (`cmd/agent/main.go`) of win-gpg-agent.

The development shallowly embeds the functions of `main.go` that decide the
claims: `setVars` (transactional environment-variable publication and its
rollback cleaner), `run` (connector serve order and teardown via the defer
stack), `onSession` (session-event dispatch) and `clipServe` (clipboard key
validation).  External primitives that live outside the repository snapshot
(`util.PrepareUserEnvironmentVariable`, `util.CleanUserEnvironmentVariable`,
the systray event type, the emulated-socket handshake of the agent package
and the hex decoder of the standard library) are modelled from the spec, as
documented on each definition.
-/

namespace WinGpgAgent

/-! ## Association-list environment stores -/

/-- Set `k` to `v` in an association list, replacing an existing binding. -/
def setKey : List (String × String) → String → String → List (String × String)
  | [], k, v => [(k, v)]
  | p :: rest, k, v => if p.1 = k then (k, v) :: rest else p :: setKey rest k v

/-- Remove every binding of `k` from an association list. -/
def eraseKey : List (String × String) → String → List (String × String)
  | [], _ => []
  | p :: rest, k => if p.1 = k then eraseKey rest k else p :: eraseKey rest k

/-- Look up the binding of `k` in an association list. -/
def lookupKey : List (String × String) → String → Option String
  | [], _ => none
  | p :: rest, k => if p.1 = k then some p.2 else lookupKey rest k

/-- The two stores a user environment variable can live in: the
process-scoped environment and the persistent user-scoped store. -/
structure EnvStore where
  proc : List (String × String)
  user : List (String × String)
deriving Repr, DecidableEq

/-- One entry of the `vars` slice built by `setVars` in `main.go`:
`{initialized, name, value, register, translate}`. -/
structure EnvVar where
  initialized : Bool
  name : String
  value : String
  register : Bool
  translate : Bool
deriving Repr, DecidableEq

/-- Modelled from the spec: `util.PrepareUserEnvironmentVariable` (not under
`src/`) writes the entry's value, translated when the translation flag is
set, to the process-scoped store and, when the persistence flag `register`
is set, to the persistent user-scoped store as well; it may fail, which is
injected through the `fail` argument. -/
def prepareUserEnvironmentVariable (fail : Bool) (tr : String → String)
    (st : EnvStore) (name value : String) (register translate : Bool) : Option EnvStore :=
  if fail then none
  else
    let w := if translate then tr value else value
    some { proc := setKey st.proc name w
           user := if register then setKey st.user name w else st.user }

/-- Modelled from the spec: `util.CleanUserEnvironmentVariable` (not under
`src/`) removes the variable from the process-scoped store and, when
`register` is set, from the persistent user-scoped store; it may fail,
injected through `fail`, in which case the store is untouched. -/
def cleanUserEnvironmentVariable (fail : Bool) (st : EnvStore)
    (name : String) (register : Bool) : Option EnvStore :=
  if fail then none
  else
    some { proc := eraseKey st.proc name
           user := if register then eraseKey st.user name else st.user }

/-- The cleaner closure of `setVars` (`main.go` lines 116-125): walk the
`vars` array from the last index down to 0; for every entry whose
`initialized` flag is set, attempt the removal (a failure is logged and
ignored) and clear the flag.  `base` is the array index of the head of the
list; `cfail i` injects a removal failure at array index `i`.  Returns the
store, the updated entries, and the trace of removal attempts in call
order. -/
def cleanerRun (cfail : Nat → Bool) :
    EnvStore → List EnvVar → Nat → EnvStore × List EnvVar × List String
  | st, [], _ => (st, [], [])
  | st, v :: vs, base =>
    let r := cleanerRun cfail st vs (base + 1)
    if v.initialized then
      let st2 :=
        match cleanUserEnvironmentVariable (cfail base) r.1 v.name v.register with
        | some s => s
        | none => r.1
      (st2, { v with initialized := false } :: r.2.1, r.2.2 ++ [v.name])
    else
      (r.1, v :: r.2.1, r.2.2)

/-- The aggregated error of a failed `setVars`: the name of the failing
entry (as in `fmt.Errorf("unable to add %s ...")`), together with the store,
the entries and the removal trace left by the rollback. -/
structure ApplyFailure where
  failedName : String
  store : EnvStore
  vars : List EnvVar
  cleanTrace : List String
deriving Repr, DecidableEq

/-- The registration loop of `setVars` (`main.go` lines 128-134): apply each
entry in order; on the first failure run the cleaner over the whole array
(entries applied so far carry `initialized = true`) and return the error
naming the failing entry.  `done` holds the already-applied prefix, `i` is
the array index of the head of `todo`; `pfail i` injects an apply failure at
index `i`. -/
def applyLoop (pfail cfail : Nat → Bool) (tr : String → String) :
    EnvStore → List EnvVar → List EnvVar → Nat → Except ApplyFailure (EnvStore × List EnvVar)
  | st, done, [], _ => .ok (st, done)
  | st, done, v :: todo, i =>
    match prepareUserEnvironmentVariable (pfail i) tr st v.name v.value v.register v.translate with
    | none =>
      let c := cleanerRun cfail st (done ++ v :: todo) 0
      .error { failedName := v.name, store := c.1, vars := c.2.1, cleanTrace := c.2.2 }
    | some st1 => applyLoop pfail cfail tr st1 (done ++ [{ v with initialized := true }]) todo (i + 1)

/-- The transaction of setVars, started on an entry list with all flags clear. -/
def setVarsRun (pfail cfail : Nat → Bool) (tr : String → String)
    (st : EnvStore) (vars : List EnvVar) : Except ApplyFailure (EnvStore × List EnvVar) :=
  applyLoop pfail cfail tr st [] vars 0

/-! ## The variable list built by `setVars` -/

def envGPGHomeName : String := "GNUPG_HOME"

def envGUIHomeName : String := "AGENT_HOME"

def envPipeName : String := "SSH_AUTH_SOCK"

/-- The `vars` slice of `setVars` (`main.go` lines 99-114): five entries;
when `native` is false the first entry's value is replaced by the Cygwin SSH
connector's socket path.  `prepareWindowsPath` stands for
`util.PrepareWindowsPath`. -/
def mkVars (native : Bool) (pipeName gpgHome guiHome cygwinSockPath : String)
    (prepareWindowsPath : String → String) : List EnvVar :=
  [ { initialized := false, name := envPipeName
      value := if native then pipeName else cygwinSockPath
      register := false, translate := false },
    { initialized := false, name := "WSL_" ++ envGPGHomeName, value := gpgHome
      register := true, translate := true },
    { initialized := false, name := "WIN_" ++ envGPGHomeName
      value := prepareWindowsPath gpgHome, register := true, translate := false },
    { initialized := false, name := "WSL_" ++ envGUIHomeName, value := guiHome
      register := true, translate := true },
    { initialized := false, name := "WIN_" ++ envGUIHomeName
      value := prepareWindowsPath guiHome, register := true, translate := false } ]

/-- Go strings.EqualFold restricted to the way `run` uses it: case-insensitive
string equality. -/
def equalFold (a b : String) : Bool := a.toLower == b.toLower

/-- The argument `run` passes to `setVars` (`main.go` line 185):
`!strings.EqualFold(gpgAgent.Cfg.GUI.SSH, "cygwin")`. -/
def setVarsNative (sshMode : String) : Bool := !(equalFold sshMode "cygwin")

/-! ## The `run` function: serve order and the defer stack -/

/-- The connector identities served by `run` (`agent.Connector...` keys). -/
inductive ConnectorKind where
  | sockAgentCygwinSSH
  | pipeSSH
  | sockAgentSSH
  | extraPort
  | sockAgent
  | sockAgentExtra
deriving Repr, DecidableEq

/-- Observable events of `run`, in execution order: serve calls, deferred
close calls, environment publication (`setVars` succeeding) and its deferred
revocation (the cleaner), `gpgAgent.Start` and the systray loop. -/
inductive Ev where
  | serve (k : ConnectorKind)
  | close (k : ConnectorKind)
  | applyEnv
  | revokeEnv
  | start
  | systrayRun
deriving Repr, DecidableEq

/-- The configuration fields `run` consults. -/
structure RunCfg where
  extraPortNum : Nat
  setEnv : Bool
  ssh : String
deriving Repr

/-- The fixed serve order of `run` (`main.go` lines 146-182): Cygwin SSH
socket, SSH pipe, SSH Unix socket, the extra TCP port only when its
configured port is nonzero, gpg-agent socket, extra gpg-agent socket. -/
def serveKinds (cfg : RunCfg) : List ConnectorKind :=
  [ConnectorKind.sockAgentCygwinSSH, ConnectorKind.pipeSSH, ConnectorKind.sockAgentSSH]
    ++ (if cfg.extraPortNum ≠ 0 then [ConnectorKind.extraPort] else [])
    ++ [ConnectorKind.sockAgent, ConnectorKind.sockAgentExtra]

/-- Serve the given connectors in order, pushing a deferred `Close` after
each successful `Serve`; stop at the first failure (`sf k = true` injects a
`Serve` error for kind `k`).  Returns the failing kind (if any), the trace
of serve attempts, and the successfully served kinds in serve order (the
push order of the deferred `Close` calls). -/
def serveAll (sf : ConnectorKind → Bool) :
    List ConnectorKind → Option ConnectorKind × List Ev × List ConnectorKind
  | [] => (none, [], [])
  | k :: ks =>
    if sf k then (some k, [Ev.serve k], [])
    else
      let r := serveAll sf ks
      (r.1, Ev.serve k :: r.2.1, k :: r.2.2)

/-- Run a sequence of `Close` calls against the set of already-closed
connectors.  `Close` is idempotent (spec 4.1): a connector closes — and the
trace records it — only the first time; a later call on an already-closed
connector is a no-op.  Returns the close events emitted and the updated
closed set. -/
def closeAll : List ConnectorKind → List ConnectorKind → List Ev × List ConnectorKind
  | closed, [] => ([], closed)
  | closed, k :: ks =>
    if k ∈ closed then closeAll closed ks
    else
      let r := closeAll (k :: closed) ks
      (Ev.close k :: r.1, r.2)

/-- Outcome of `run`. -/
inductive RunResult where
  | serveErr (k : ConnectorKind)
  | envErr
  | startErr
  | ok
deriving Repr, DecidableEq

/-- The control flow of `run` (`main.go` lines 138-198) together with its
teardown: serve the connectors in order; on success optionally publish the
environment (pushing the cleaner onto the defer stack after the connector
closes), start the agent and enter the systray loop.  When the loop ends,
`onExit` (`main.go` lines 77-85) calls `gpgAgent.Stop()`, which per spec 4.6
closes every connector in reverse order; then `run` returns and its deferred
calls run in LIFO order — the cleaner revokes the environment first, and the
deferred `Close` calls find the connectors already closed and are idempotent
no-ops.  On an early error no systray loop runs and the deferred `Close`
calls perform the closes themselves.  The returned trace lists every event
in execution order. -/
def runGo (cfg : RunCfg) (sf : ConnectorKind → Bool) (envFail startFail : Bool) :
    RunResult × List Ev :=
  let s := serveAll sf (serveKinds cfg)
  match s.1 with
  | some k => (.serveErr k, s.2.1 ++ (closeAll [] s.2.2.reverse).1)
  | none =>
    if cfg.setEnv then
      if envFail then (.envErr, s.2.1 ++ (closeAll [] s.2.2.reverse).1)
      else
        if startFail then
          (.startErr,
           s.2.1 ++ [Ev.applyEnv, Ev.revokeEnv] ++ (closeAll [] s.2.2.reverse).1)
        else
          let stopC := closeAll [] s.2.2.reverse
          (.ok,
           s.2.1 ++ [Ev.applyEnv, Ev.start, Ev.systrayRun] ++ stopC.1 ++
             [Ev.revokeEnv] ++ (closeAll stopC.2 s.2.2.reverse).1)
    else
      if startFail then (.startErr, s.2.1 ++ (closeAll [] s.2.2.reverse).1)
      else
        let stopC := closeAll [] s.2.2.reverse
        (.ok,
         s.2.1 ++ [Ev.start, Ev.systrayRun] ++ stopC.1 ++
           (closeAll stopC.2 s.2.2.reverse).1)

/-! ## Session events (`onSession`) -/

/-- Modelled from the spec: the systray package (not under `src/`) delivers
OS session events as messages; beyond lock and unlock every other kind is
carried by its numeric code. -/
inductive SessionEvent where
  | sesLock
  | sesUnlock
  | other (code : Nat)
deriving Repr, DecidableEq

/-- The two supervisor calls `onSession` can make. -/
inductive AgentCall where
  | sessionLock
  | sessionUnlock
deriving Repr, DecidableEq

/-- The dispatch switch of `onSession` (`main.go` lines 87-95): a lock event
invokes `SessionLock`, an unlock event invokes `SessionUnlock`, everything
else falls through to the empty default. -/
def onSession : SessionEvent → List AgentCall
  | .sesLock => [AgentCall.sessionLock]
  | .sesUnlock => [AgentCall.sessionUnlock]
  | .other _ => []

/-- Modelled from the spec: `SessionLock` moves the LockController state to
Locked, `SessionUnlock` to Unlocked (`locked = false`). -/
def lockStep : Bool → AgentCall → Bool
  | _, AgentCall.sessionLock => true
  | _, AgentCall.sessionUnlock => false

/-- The lock state after `onSession` handles one event. -/
def onSessionLock (locked : Bool) (e : SessionEvent) : Bool :=
  (onSession e).foldl lockStep locked

/-! ## The emulated-socket handshake (modelled from the spec) -/

/-- Modelled from the spec: the constant-time byte comparison used by the
emulated-socket adapter (the agent package is not under `src/`): lengths
must match and the fold accumulates the comparison of every byte pair,
traversing the whole input without an early exit. -/
def constantTimeCompare (a b : List Nat) : Bool :=
  (a.length == b.length) &&
    ((List.zip a b).foldl (fun acc p => acc && (p.1 == p.2)) true)

/-- States of a relay session. -/
inductive SessionState where
  | handshaking
  | relaying
  | closed
deriving Repr, DecidableEq

/-- Modelled from the spec: the emulated-socket secret exchange.  The input
is what the client sent back within the read deadline (`none` is a timeout).
Only an exact echo of the published secret reaches `Relaying`; a mismatch or
timeout closes the connection with no relay started. -/
def handshakeStep (secret : List Nat) : Option (List Nat) → SessionState
  | none => SessionState.closed
  | some bs =>
    if constantTimeCompare bs secret then SessionState.relaying else SessionState.closed

/-- Modelled from the spec: concurrent sessions are independent; each
accepted connection runs its own handshake on its own input. -/
def stepSessions (secret : List Nat) (received : List (Option (List Nat))) :
    List SessionState :=
  received.map (handshakeStep secret)

/-! ## Clipboard key validation (`clipServe`) -/

/-- One hex digit, as `encoding/hex` accepts it: `0-9`, `a-f`, `A-F`
(argument is the character code). -/
def hexDigit (n : Nat) : Option Nat :=
  if 48 ≤ n ∧ n ≤ 57 then some (n - 48)
  else if 97 ≤ n ∧ n ≤ 102 then some (n - 87)
  else if 65 ≤ n ∧ n ≤ 70 then some (n - 55)
  else none

/-- Modelled from the spec and the `encoding/hex` contract (standard
library, not under `src/`): decode pairs of hex digits; an odd length or a
non-hex character is an error. -/
def hexDecodeList : List Char → Option (List Nat)
  | [] => some []
  | [_] => none
  | a :: b :: rest =>
    match hexDigit a.toNat, hexDigit b.toNat, hexDecodeList rest with
    | some hi, some lo, some r => some ((16 * hi + lo) :: r)
    | _, _, _ => none

/-- Hex decoding of a string, as hex.DecodeString performs it. -/
def hexDecode (s : String) : Option (List Nat) :=
  hexDecodeList s.data

/-- The per-key filter of `clipServe` (`main.go` lines 214-224): a key is
kept exactly when its hex decoding succeeds and yields 32 bytes; otherwise
it is logged as bad and skipped. -/
def validKey (s : String) : Option (List Nat) :=
  match hexDecode s with
  | none => none
  | some pk => if pk.length = 32 then some pk else none

/-- The key loop of `clipServe`: walk the configured keys with their
indices; collect the indices logged as bad and the decoded valid keys. -/
def clipScan : Nat → List String → List Nat × List (List Nat)
  | _, [] => ([], [])
  | i, s :: rest =>
    let r := clipScan (i + 1) rest
    match validKey s with
    | none => (i :: r.1, r.2)
    | some pk => (r.1, pk :: r.2)

/-- Whether `clipServe` starts the clipboard server (`main.go` lines 209 and
225): the configured key list is nonempty and at least one valid key
remains. -/
def clipServeStarts (keys : List String) : Bool :=
  !keys.isEmpty && !(clipScan 0 keys).2.isEmpty

/-- The store update a successful `PrepareUserEnvironmentVariable` performs
for one entry. -/
def applyStore (tr : String → String) (st : EnvStore) (v : EnvVar) : EnvStore :=
  { proc := setKey st.proc v.name (if v.translate then tr v.value else v.value)
    user :=
      if v.register then
        setKey st.user v.name (if v.translate then tr v.value else v.value)
      else st.user }

/-- Mark an entry applied. -/
def markApplied (v : EnvVar) : EnvVar := { v with initialized := true }

/-! ## Lemmas about the association-list stores -/

theorem lookupKey_setKey (l : List (String × String)) (k v k2 : String) :
    lookupKey (setKey l k v) k2 = if k2 = k then some v else lookupKey l k2 := by
  induction l with
  | nil =>
    by_cases h : k2 = k
    · simp [setKey, lookupKey, h]
    · simp [setKey, lookupKey, h, Ne.symm h]
  | cons p rest ih =>
    by_cases h1 : p.1 = k
    · by_cases h2 : k2 = k
      · simp [setKey, lookupKey, h1, h2]
      · simp [setKey, lookupKey, h1, h2, Ne.symm h2]
    · by_cases h3 : p.1 = k2
      · have h2 : ¬ k2 = k := fun hh => h1 (h3.trans hh)
        simp [setKey, lookupKey, h1, h2, h3]
      · simp [setKey, lookupKey, h1, h3, ih]

theorem lookupKey_eraseKey (l : List (String × String)) (k k2 : String) :
    lookupKey (eraseKey l k) k2 = if k2 = k then none else lookupKey l k2 := by
  induction l with
  | nil => simp [eraseKey, lookupKey]
  | cons p rest ih =>
    by_cases h1 : p.1 = k
    · by_cases h2 : k2 = k
      · subst h2
        simp [eraseKey, lookupKey, h1, ih]
      · have h3 : ¬ p.1 = k2 := fun hh => h2 ((hh.symm.trans h1))
        have h4 : ¬ k = k2 := fun hh => h3 (h1.trans hh)
        simp [eraseKey, lookupKey, h1, h2, h3, h4, ih]
    · by_cases h3 : p.1 = k2
      · have h2 : ¬ k2 = k := fun hh => h1 (h3.trans hh)
        simp [eraseKey, lookupKey, h1, h2, h3]
      · simp [eraseKey, lookupKey, h1, h3, ih]

theorem anyCongr {α : Type} (l : List α) (f g : α → Bool)
    (h : ∀ x ∈ l, f x = g x) : l.any f = l.any g := by
  induction l with
  | nil => rfl
  | cons a l ih =>
    simp only [List.any_cons, h a (by simp)]
    rw [ih (fun x hx => h x (by simp [hx]))]

/-! ## Lemmas about the cleaner -/

theorem cleanerRun_cons_pos (cfail : Nat → Bool) (st : EnvStore) (v : EnvVar)
    (vs : List EnvVar) (base : Nat) (hv : v.initialized = true) :
    cleanerRun cfail st (v :: vs) base =
      ((match cleanUserEnvironmentVariable (cfail base)
          (cleanerRun cfail st vs (base + 1)).1 v.name v.register with
        | some s => s
        | none => (cleanerRun cfail st vs (base + 1)).1),
       { v with initialized := false } :: (cleanerRun cfail st vs (base + 1)).2.1,
       (cleanerRun cfail st vs (base + 1)).2.2 ++ [v.name]) := by
  simp only [cleanerRun]
  rw [if_pos hv]

theorem cleanerRun_cons_neg (cfail : Nat → Bool) (st : EnvStore) (v : EnvVar)
    (vs : List EnvVar) (base : Nat) (hv : ¬ v.initialized = true) :
    cleanerRun cfail st (v :: vs) base =
      ((cleanerRun cfail st vs (base + 1)).1,
       v :: (cleanerRun cfail st vs (base + 1)).2.1,
       (cleanerRun cfail st vs (base + 1)).2.2) := by
  simp only [cleanerRun]
  rw [if_neg hv]

theorem cleanerRun_vars_false (cfail : Nat → Bool) (st : EnvStore)
    (vars : List EnvVar) (base : Nat) :
    ∀ v ∈ (cleanerRun cfail st vars base).2.1, v.initialized = false := by
  induction vars generalizing base with
  | nil => simp [cleanerRun]
  | cons v vs ih =>
    by_cases hv : v.initialized = true
    · rw [cleanerRun_cons_pos cfail st v vs base hv]
      intro w hw
      rcases List.mem_cons.mp hw with h | h
      · simp [h]
      · exact ih (base + 1) w h
    · rw [cleanerRun_cons_neg cfail st v vs base hv]
      intro w hw
      rcases List.mem_cons.mp hw with h | h
      · rw [h]
        simpa using hv
      · exact ih (base + 1) w h

theorem cleanerRun_noneInit (cfail : Nat → Bool) (st : EnvStore)
    (vars : List EnvVar) (base : Nat)
    (h : ∀ v ∈ vars, v.initialized = false) :
    cleanerRun cfail st vars base = (st, vars, []) := by
  induction vars generalizing base with
  | nil => simp [cleanerRun]
  | cons v vs ih =>
    have hv : ¬ v.initialized = true := by simp [h v (by simp)]
    rw [cleanerRun_cons_neg cfail st v vs base hv,
      ih (base + 1) (fun w hw => h w (by simp [hw]))]

theorem cleanerRun_trace (cfail : Nat → Bool) (st : EnvStore)
    (vars : List EnvVar) (base : Nat) :
    (cleanerRun cfail st vars base).2.2 =
      ((vars.filter fun v => v.initialized).map fun v => v.name).reverse := by
  induction vars generalizing base with
  | nil => simp [cleanerRun]
  | cons v vs ih =>
    by_cases hv : v.initialized = true
    · rw [cleanerRun_cons_pos cfail st v vs base hv]
      simp [hv, ih (base + 1)]
    · rw [cleanerRun_cons_neg cfail st v vs base hv]
      have hv2 : v.initialized = false := by simpa using hv
      simp [hv2, ih (base + 1)]

theorem cleanerRun_store_proc (cfail : Nat → Bool) (hcf : ∀ i, cfail i = false)
    (st : EnvStore) (vars : List EnvVar) (base : Nat) (k : String) :
    lookupKey (cleanerRun cfail st vars base).1.proc k =
      if vars.any (fun v => v.initialized && decide (v.name = k)) then none
      else lookupKey st.proc k := by
  induction vars generalizing base with
  | nil => simp [cleanerRun]
  | cons v vs ih =>
    by_cases hv : v.initialized = true
    · rw [cleanerRun_cons_pos cfail st v vs base hv]
      by_cases hk : v.name = k
      · simp [hcf base, cleanUserEnvironmentVariable, lookupKey_eraseKey, hv, hk]
      · have hk2 : ¬ k = v.name := fun hh => hk hh.symm
        simp [hcf base, cleanUserEnvironmentVariable, lookupKey_eraseKey, hv, hk,
          hk2, ih (base + 1)]
    · rw [cleanerRun_cons_neg cfail st v vs base hv]
      have hv2 : v.initialized = false := by simpa using hv
      simp [hv2, ih (base + 1)]

theorem cleanerRun_store_user (cfail : Nat → Bool) (hcf : ∀ i, cfail i = false)
    (st : EnvStore) (vars : List EnvVar) (base : Nat) (k : String) :
    lookupKey (cleanerRun cfail st vars base).1.user k =
      if vars.any (fun v => v.initialized && (v.register && decide (v.name = k))) then none
      else lookupKey st.user k := by
  induction vars generalizing base with
  | nil => simp [cleanerRun]
  | cons v vs ih =>
    by_cases hv : v.initialized = true
    · rw [cleanerRun_cons_pos cfail st v vs base hv]
      by_cases hr : v.register = true
      · by_cases hk : v.name = k
        · simp [hcf base, cleanUserEnvironmentVariable, lookupKey_eraseKey, hv,
            hr, hk]
        · have hk2 : ¬ k = v.name := fun hh => hk hh.symm
          simp [hcf base, cleanUserEnvironmentVariable, lookupKey_eraseKey, hv,
            hr, hk, hk2, ih (base + 1)]
      · have hr2 : v.register = false := by simpa using hr
        simp [hcf base, cleanUserEnvironmentVariable, hv, hr2, ih (base + 1)]
    · rw [cleanerRun_cons_neg cfail st v vs base hv]
      have hv2 : v.initialized = false := by simpa using hv
      simp [hv2, ih (base + 1)]

theorem cleanerRun_user_none (cfail : Nat → Bool) (st : EnvStore)
    (vars : List EnvVar) (base : Nat) (k : String)
    (h : lookupKey st.user k = none) :
    lookupKey (cleanerRun cfail st vars base).1.user k = none := by
  induction vars generalizing base with
  | nil => simpa [cleanerRun]
  | cons v vs ih =>
    by_cases hv : v.initialized = true
    · rw [cleanerRun_cons_pos cfail st v vs base hv]
      by_cases hc : cfail base = true
      · simp [hc, cleanUserEnvironmentVariable, ih (base + 1)]
      · have hc2 : cfail base = false := by simpa using hc
        by_cases hr : v.register = true
        · simp [hc2, cleanUserEnvironmentVariable, hr, lookupKey_eraseKey,
            ih (base + 1)]
        · have hr2 : v.register = false := by simpa using hr
          simp [hc2, cleanUserEnvironmentVariable, hr2, ih (base + 1)]
    · rw [cleanerRun_cons_neg cfail st v vs base hv]
      exact ih (base + 1)

/-! ## Lemmas about the apply loop -/

theorem prepare_ok (tr : String → String) (st : EnvStore) (v : EnvVar) :
    prepareUserEnvironmentVariable false tr st v.name v.value v.register v.translate =
      some (applyStore tr st v) := rfl

theorem prepare_fail (tr : String → String) (st : EnvStore) (v : EnvVar) :
    prepareUserEnvironmentVariable true tr st v.name v.value v.register v.translate =
      none := rfl

/-- Closed form of `applyLoop` when the first apply failure is at relative
index `m` of `todo`: the loop applies the first `m` entries, fails on entry
`m`, runs the cleaner over the whole array and returns the error naming
entry `m`. -/
theorem applyLoop_firstFail_eq (pfail cfail : Nat → Bool) (tr : String → String)
    (todo : List EnvVar) :
    ∀ (done : List EnvVar) (st : EnvStore) (i m : Nat) (hm : m < todo.length),
      pfail (i + m) = true → (∀ j, j < m → pfail (i + j) = false) →
      applyLoop pfail cfail tr st done todo i =
        .error
          { failedName := (todo.get ⟨m, hm⟩).name
            store :=
              (cleanerRun cfail ((todo.take m).foldl (applyStore tr) st)
                (done ++ (todo.take m).map markApplied ++ todo.drop m) 0).1
            vars :=
              (cleanerRun cfail ((todo.take m).foldl (applyStore tr) st)
                (done ++ (todo.take m).map markApplied ++ todo.drop m) 0).2.1
            cleanTrace :=
              (cleanerRun cfail ((todo.take m).foldl (applyStore tr) st)
                (done ++ (todo.take m).map markApplied ++ todo.drop m) 0).2.2 } := by
  induction todo with
  | nil =>
    intro done st i m hm
    exact absurd hm (by simp)
  | cons v todo ih =>
    intro done st i m hm hfail hok
    match m with
    | 0 =>
      have hp : pfail i = true := by simpa using hfail
      simp only [applyLoop, hp, prepare_fail, List.take, List.drop, List.map,
        List.foldl, List.get, List.append_nil, List.nil_append]
    | Nat.succ m2 =>
      have hp : pfail i = false := by
        have := hok 0 (Nat.succ_pos m2)
        simpa using this
      have hstep :
          applyLoop pfail cfail tr st done (v :: todo) i =
            applyLoop pfail cfail tr (applyStore tr st v)
              (done ++ [markApplied v]) todo (i + 1) := by
        simp only [applyLoop, hp, prepare_ok]
        rfl
      rw [hstep]
      have hm2 : m2 < todo.length := by simpa using Nat.lt_of_succ_lt_succ hm
      have hfail2 : pfail (i + 1 + m2) = true := by
        have : i + 1 + m2 = i + Nat.succ m2 := by omega
        rw [this]
        exact hfail
      have hok2 : ∀ j, j < m2 → pfail (i + 1 + j) = false := by
        intro j hj
        have : i + 1 + j = i + (j + 1) := by omega
        rw [this]
        exact hok (j + 1) (by omega)
      rw [ih (done ++ [markApplied v]) (applyStore tr st v) (i + 1) m2 hm2 hfail2 hok2]
      simp [List.append_assoc]

theorem foldl_applyStore_proc (tr : String → String) (l : List EnvVar) :
    ∀ (st : EnvStore) (n : String), (∀ v ∈ l, ¬ v.name = n) →
      lookupKey (l.foldl (applyStore tr) st).proc n = lookupKey st.proc n := by
  induction l with
  | nil =>
    intro st n _
    rfl
  | cons v l ih =>
    intro st n h
    simp only [List.foldl]
    rw [ih (applyStore tr st v) n (fun w hw => h w (by simp [hw]))]
    have hne : ¬ n = v.name := fun hh => (h v (by simp)) hh.symm
    simp [applyStore, lookupKey_setKey, hne]

theorem foldl_applyStore_user (tr : String → String) (l : List EnvVar) :
    ∀ (st : EnvStore) (n : String), (∀ v ∈ l, v.register = true → ¬ v.name = n) →
      lookupKey (l.foldl (applyStore tr) st).user n = lookupKey st.user n := by
  induction l with
  | nil =>
    intro st n _
    rfl
  | cons v l ih =>
    intro st n h
    simp only [List.foldl]
    rw [ih (applyStore tr st v) n (fun w hw => h w (by simp [hw]))]
    by_cases hr : v.register = true
    · have hne : ¬ n = v.name := fun hh => (h v (by simp) hr) hh.symm
      simp [applyStore, hr, lookupKey_setKey, hne]
    · have hr2 : v.register = false := by simpa using hr
      simp [applyStore, hr2]

/-! ## Claim theorems: the environment transaction -/

/-- Claim C1: for every list of environment variable entries, if applying
entry `m` fails (entries before it succeed) then the already-applied entries
are rolled back in reverse order (the removal trace is the reverse of the
applied prefix), every entry's applied flag is false afterwards, a single
error naming the failing entry is returned, and no entry of the list remains
observable in either environment store (removal primitives functioning,
entries starting absent). -/
theorem setVars_firstFailure_rollback (pfail cfail : Nat → Bool)
    (tr : String → String) (st : EnvStore) (vars : List EnvVar) (m : Nat)
    (hinit : ∀ v ∈ vars, v.initialized = false)
    (hcf : ∀ i, cfail i = false)
    (hm : m < vars.length)
    (hfail : pfail m = true)
    (hok : ∀ j, j < m → pfail j = false)
    (habs : ∀ v ∈ vars, lookupKey st.proc v.name = none ∧ lookupKey st.user v.name = none) :
    ∃ e, setVarsRun pfail cfail tr st vars = .error e ∧
      e.failedName = (vars.get ⟨m, hm⟩).name ∧
      (∀ v ∈ e.vars, v.initialized = false) ∧
      e.cleanTrace = ((vars.take m).map fun v => v.name).reverse ∧
      (∀ v ∈ vars, lookupKey e.store.proc v.name = none ∧
        lookupKey e.store.user v.name = none) := by
  have heq := applyLoop_firstFail_eq pfail cfail tr vars [] st 0 m hm
    (by simpa using hfail) (fun j hj => by simpa using hok j hj)
  rw [setVarsRun, heq]
  refine ⟨_, rfl, rfl, ?_, ?_, ?_⟩
  · exact cleanerRun_vars_false cfail _ _ 0
  · rw [cleanerRun_trace]
    have hfilter :
        (([] ++ (vars.take m).map markApplied ++ vars.drop m).filter
          fun v => v.initialized) = (vars.take m).map markApplied := by
      rw [List.nil_append, List.filter_append]
      have h1 : (((vars.take m).map markApplied).filter fun v => v.initialized) =
          (vars.take m).map markApplied :=
        List.filter_eq_self.mpr (by
          intro a ha
          rcases List.mem_map.mp ha with ⟨b, _, hb⟩
          simp [← hb, markApplied])
      have h2 : ((vars.drop m).filter fun v => v.initialized) = [] :=
        List.filter_eq_nil_iff.mpr (by
          intro a ha
          simp [hinit a (List.mem_of_mem_drop ha)])
      rw [h1, h2, List.append_nil]
    rw [hfilter, List.map_map]
    have : ((fun v => v.name) ∘ markApplied) = fun v : EnvVar => v.name := by
      funext w
      rfl
    rw [this]
  · intro v hv
    have habsv := habs v hv
    constructor
    · rw [cleanerRun_store_proc cfail hcf]
      have hcond :
          (([] ++ (vars.take m).map markApplied ++ vars.drop m).any
            fun w => w.initialized && decide (w.name = v.name)) =
          ((vars.take m).any fun w => decide (w.name = v.name)) := by
        rw [List.nil_append, List.any_append]
        have h1 :
            (((vars.take m).map markApplied).any
              fun w => w.initialized && decide (w.name = v.name)) =
            ((vars.take m).any fun w => decide (w.name = v.name)) := by
          rw [List.any_map]
          apply anyCongr
          intro x _
          simp [markApplied]
        have h2 :
            ((vars.drop m).any fun w => w.initialized && decide (w.name = v.name)) =
              false := by
          rw [List.any_eq_false]
          intro x hx
          simp [hinit x (List.mem_of_mem_drop hx)]
        rw [h1, h2, Bool.or_false]
      rw [hcond]
      by_cases hmem : ((vars.take m).any fun w => decide (w.name = v.name)) = true
      · simp [hmem]
      · have hmem2 : ((vars.take m).any fun w => decide (w.name = v.name)) = false := by
          simpa using hmem
        have hnone : ∀ w ∈ vars.take m, ¬ w.name = v.name := by
          intro w hw
          have := List.any_eq_false.mp hmem2 w hw
          simpa using this
        simp only [hmem2, Bool.false_eq_true, if_false]
        rw [foldl_applyStore_proc tr (vars.take m) st v.name hnone]
        exact habsv.1
    · rw [cleanerRun_store_user cfail hcf]
      have hcond :
          (([] ++ (vars.take m).map markApplied ++ vars.drop m).any
            fun w => w.initialized && (w.register && decide (w.name = v.name))) =
          ((vars.take m).any fun w => w.register && decide (w.name = v.name)) := by
        rw [List.nil_append, List.any_append]
        have h1 :
            (((vars.take m).map markApplied).any
              fun w => w.initialized && (w.register && decide (w.name = v.name))) =
            ((vars.take m).any fun w => w.register && decide (w.name = v.name)) := by
          rw [List.any_map]
          apply anyCongr
          intro x _
          simp [markApplied]
        have h2 :
            ((vars.drop m).any
              fun w => w.initialized && (w.register && decide (w.name = v.name))) =
              false := by
          rw [List.any_eq_false]
          intro x hx
          simp [hinit x (List.mem_of_mem_drop hx)]
        rw [h1, h2, Bool.or_false]
      rw [hcond]
      by_cases hmem :
          ((vars.take m).any fun w => w.register && decide (w.name = v.name)) = true
      · simp [hmem]
      · have hmem2 :
            ((vars.take m).any fun w => w.register && decide (w.name = v.name)) =
              false := by
          simpa using hmem
        have hnone : ∀ w ∈ vars.take m, w.register = true → ¬ w.name = v.name := by
          intro w hw hr
          have := List.any_eq_false.mp hmem2 w hw
          simp [hr] at this
          simpa using this
        simp only [hmem2, Bool.false_eq_true, if_false]
        rw [foldl_applyStore_user tr (vars.take m) st v.name hnone]
        exact habsv.2

/-- Witness for C1 at a concrete input: the third entry of the published
list (`WIN_GNUPG_HOME`) fails to apply; the error names it, the first two
entries are rolled back in reverse order, and nothing remains in either
store. -/
theorem setVars_firstFailure_rollback_witness :
    ∃ e, setVarsRun (fun i => decide (2 ≤ i)) (fun _ => false) (fun s => s)
        ⟨[], []⟩ (mkVars true "p" "g" "h" "c" (fun s => s)) = .error e ∧
      e.failedName =
        ((mkVars true "p" "g" "h" "c" (fun s => s)).get ⟨2, by decide⟩).name ∧
      (∀ v ∈ e.vars, v.initialized = false) ∧
      e.cleanTrace =
        (((mkVars true "p" "g" "h" "c" (fun s => s)).take 2).map fun v => v.name).reverse ∧
      (∀ v ∈ mkVars true "p" "g" "h" "c" (fun s => s),
        lookupKey e.store.proc v.name = none ∧
          lookupKey e.store.user v.name = none) :=
  setVars_firstFailure_rollback (fun i => decide (2 ≤ i)) (fun _ => false)
    (fun s => s) ⟨[], []⟩ (mkVars true "p" "g" "h" "c" (fun s => s)) 2
    (by decide) (fun _ => rfl) (by decide) (by decide) (by decide) (by decide)

/-- Claim C2: the cleaner (`Revoke`) attempts removal of exactly the
currently-applied entries in reverse declaration order whatever the pattern
of individual removal failures (a failure does not abort the remaining
removals), every applied flag is false afterwards, and a second run removes
nothing and leaves the store untouched. -/
theorem setVars_cleaner_revoke (cfail cfail2 : Nat → Bool) (st : EnvStore)
    (vars : List EnvVar) :
    (cleanerRun cfail st vars 0).2.2 =
      ((vars.filter fun v => v.initialized).map fun v => v.name).reverse ∧
    (∀ v ∈ (cleanerRun cfail st vars 0).2.1, v.initialized = false) ∧
    cleanerRun cfail2 (cleanerRun cfail st vars 0).1 (cleanerRun cfail st vars 0).2.1 0 =
      ((cleanerRun cfail st vars 0).1, (cleanerRun cfail st vars 0).2.1, []) :=
  ⟨cleanerRun_trace cfail st vars 0, cleanerRun_vars_false cfail st vars 0,
    cleanerRun_noneInit cfail2 _ _ 0 (cleanerRun_vars_false cfail st vars 0)⟩

/-- Over the whole transaction (success or failure) the persistent
user-scoped store never gains a binding for a name that no entry registers:
registration writes it only when the persistence flag is set, and rollback
only erases. -/
theorem applyLoop_user_none (pfail cfail : Nat → Bool) (tr : String → String)
    (n : String) (todo : List EnvVar) :
    ∀ (done : List EnvVar) (st : EnvStore) (i : Nat),
      lookupKey st.user n = none →
      (∀ v ∈ todo, v.register = true → ¬ v.name = n) →
      (match applyLoop pfail cfail tr st done todo i with
       | .ok r => lookupKey r.1.user n = none
       | .error e => lookupKey e.store.user n = none) := by
  induction todo with
  | nil =>
    intro done st i h _
    simpa [applyLoop]
  | cons v todo ih =>
    intro done st i h hreg
    by_cases hp : pfail i = true
    · simp only [applyLoop, hp, prepare_fail]
      exact cleanerRun_user_none cfail st (done ++ v :: todo) 0 n h
    · have hp2 : pfail i = false := by simpa using hp
      have h1 : lookupKey (applyStore tr st v).user n = none := by
        by_cases hr : v.register = true
        · have hne : ¬ n = v.name := fun hh => (hreg v (by simp) hr) hh.symm
          simp [applyStore, hr, lookupKey_setKey, hne, h]
        · have hr2 : v.register = false := by simpa using hr
          simpa [applyStore, hr2] using h
      simp only [applyLoop, hp2, prepare_ok]
      exact ih (done ++ [markApplied v]) (applyStore tr st v) (i + 1) h1
        (fun w hw hr => hreg w (by simp [hw]) hr)

/-- Claim C9: the SSH agent socket entry is registered with the persistence
flag false while the four home-path entries are registered with it true, and
consequently `SSH_AUTH_SOCK` is never written to the persistent user-scoped
store, whatever the compatibility mode and the outcome of the
transaction. -/
theorem setVars_ssh_sock_not_persisted (native : Bool) (p g h c : String)
    (pw tr : String → String) (pfail cfail : Nat → Bool) (st : EnvStore)
    (hu : lookupKey st.user envPipeName = none) :
    ((mkVars native p g h c pw).map fun v => (v.name, v.register)) =
      [(envPipeName, false), ("WSL_" ++ envGPGHomeName, true),
       ("WIN_" ++ envGPGHomeName, true), ("WSL_" ++ envGUIHomeName, true),
       ("WIN_" ++ envGUIHomeName, true)] ∧
    (match setVarsRun pfail cfail tr st (mkVars native p g h c pw) with
     | .ok r => lookupKey r.1.user envPipeName = none
     | .error e => lookupKey e.store.user envPipeName = none) := by
  constructor
  · rfl
  · apply applyLoop_user_none pfail cfail tr envPipeName _ [] st 0 hu
    intro v hv hr
    simp [mkVars] at hv
    rcases hv with h1 | h1 | h1 | h1 | h1 <;> rw [h1] at hr ⊢ <;>
      simp_all [envPipeName, envGPGHomeName, envGUIHomeName]

/-- Witness for C9 at a concrete input: a successful publication from the
empty store in cygwin mode leaves `SSH_AUTH_SOCK` out of the persistent
store. -/
theorem setVars_ssh_sock_not_persisted_witness :
    ((mkVars false "p" "g" "h" "c" (fun s => s)).map fun v => (v.name, v.register)) =
      [(envPipeName, false), ("WSL_" ++ envGPGHomeName, true),
       ("WIN_" ++ envGPGHomeName, true), ("WSL_" ++ envGUIHomeName, true),
       ("WIN_" ++ envGUIHomeName, true)] ∧
    (match setVarsRun (fun _ => false) (fun _ => false) (fun s => s) ⟨[], []⟩
        (mkVars false "p" "g" "h" "c" (fun s => s)) with
     | .ok r => lookupKey r.1.user envPipeName = none
     | .error e => lookupKey e.store.user envPipeName = none) :=
  setVars_ssh_sock_not_persisted false "p" "g" "h" "c" (fun s => s) (fun s => s)
    (fun _ => false) (fun _ => false) ⟨[], []⟩ rfl

/-- A successful tail of the apply loop preserves presence in the
process-scoped store. -/
theorem applyLoop_proc_isSome_mono (pfail cfail : Nat → Bool) (tr : String → String)
    (n : String) (todo : List EnvVar) :
    ∀ (done : List EnvVar) (st : EnvStore) (i : Nat) (st2 : EnvStore)
      (vars2 : List EnvVar),
      applyLoop pfail cfail tr st done todo i = .ok (st2, vars2) →
      (lookupKey st.proc n).isSome = true →
      (lookupKey st2.proc n).isSome = true := by
  induction todo with
  | nil =>
    intro done st i st2 vars2 hok hsome
    simp only [applyLoop] at hok
    cases hok
    exact hsome
  | cons v todo ih =>
    intro done st i st2 vars2 hok hsome
    by_cases hp : pfail i = true
    · simp only [applyLoop, hp, prepare_fail] at hok
      exact Except.noConfusion hok
    · have hp2 : pfail i = false := by simpa using hp
      simp only [applyLoop, hp2, prepare_ok] at hok
      refine ih (done ++ [markApplied v]) (applyStore tr st v) (i + 1) st2 vars2 hok ?_
      by_cases hn : n = v.name
      · simp [applyStore, lookupKey_setKey, hn]
      · simpa [applyStore, lookupKey_setKey, hn] using hsome

/-- After a successful apply loop, every entry's name is present in the
process-scoped store. -/
theorem applyLoop_proc_all_present (pfail cfail : Nat → Bool) (tr : String → String)
    (todo : List EnvVar) :
    ∀ (done : List EnvVar) (st : EnvStore) (i : Nat) (st2 : EnvStore)
      (vars2 : List EnvVar),
      applyLoop pfail cfail tr st done todo i = .ok (st2, vars2) →
      ∀ v ∈ todo, (lookupKey st2.proc v.name).isSome = true := by
  induction todo with
  | nil =>
    intro done st i st2 vars2 _ v hv
    exact absurd hv (by simp)
  | cons v todo ih =>
    intro done st i st2 vars2 hok w hw
    by_cases hp : pfail i = true
    · simp only [applyLoop, hp, prepare_fail] at hok
      exact Except.noConfusion hok
    · have hp2 : pfail i = false := by simpa using hp
      simp only [applyLoop, hp2, prepare_ok] at hok
      rcases List.mem_cons.mp hw with h | h
      · refine applyLoop_proc_isSome_mono pfail cfail tr w.name todo
          (done ++ [markApplied v]) (applyStore tr st v) (i + 1) st2 vars2 hok ?_
        simp [h, applyStore, lookupKey_setKey]
      · exact ih (done ++ [markApplied v]) (applyStore tr st v) (i + 1) st2 vars2 hok w h

/-- Claim C6: when environment publication is enabled exactly five variables
are published: the SSH agent socket variable and the two prefix-distinguished
pairs for the backend home and the GUI home, the `WSL_` variants carrying
the raw path with the translation flag set and the `WIN_` variants carrying
the Windows-form path with the translation flag unset; on a successful
transaction all five names are present in the process-scoped store. -/
theorem setVars_publishes_five (native : Bool) (p g h c : String)
    (pw tr : String → String) (pfail cfail : Nat → Bool) (st st2 : EnvStore)
    (vars2 : List EnvVar)
    (hok : setVarsRun pfail cfail tr st (mkVars native p g h c pw) = .ok (st2, vars2)) :
    (mkVars native p g h c pw).length = 5 ∧
    ((mkVars native p g h c pw).map fun v => (v.name, v.register, v.translate)) =
      [(envPipeName, false, false), ("WSL_" ++ envGPGHomeName, true, true),
       ("WIN_" ++ envGPGHomeName, true, false), ("WSL_" ++ envGUIHomeName, true, true),
       ("WIN_" ++ envGUIHomeName, true, false)] ∧
    ((mkVars native p g h c pw).map fun v => v.value) =
      [if native then p else c, g, pw g, h, pw h] ∧
    (∀ v ∈ mkVars native p g h c pw, (lookupKey st2.proc v.name).isSome = true) :=
  ⟨rfl, rfl, rfl,
    applyLoop_proc_all_present pfail cfail tr (mkVars native p g h c pw) [] st 0
      st2 vars2 hok⟩

/-- Witness for C6 at a concrete input: a successful publication from the
empty store; all five names end up present in the process-scoped store. -/
theorem setVars_publishes_five_witness :
    (mkVars true "p" "g" "h" "c" (fun s => s)).length = 5 ∧
    ((mkVars true "p" "g" "h" "c" (fun s => s)).map fun v => (v.name, v.register, v.translate)) =
      [(envPipeName, false, false), ("WSL_" ++ envGPGHomeName, true, true),
       ("WIN_" ++ envGPGHomeName, true, false), ("WSL_" ++ envGUIHomeName, true, true),
       ("WIN_" ++ envGUIHomeName, true, false)] ∧
    ((mkVars true "p" "g" "h" "c" (fun s => s)).map fun v => v.value) =
      [if true then "p" else "c", "g", "g", "h", "h"] ∧
    (∀ v ∈ mkVars true "p" "g" "h" "c" (fun s => s),
      (lookupKey
        (EnvStore.mk
          [("SSH_AUTH_SOCK", "p"), ("WSL_GNUPG_HOME", "g"), ("WIN_GNUPG_HOME", "g"),
           ("WSL_AGENT_HOME", "h"), ("WIN_AGENT_HOME", "h")]
          [("WSL_GNUPG_HOME", "g"), ("WIN_GNUPG_HOME", "g"), ("WSL_AGENT_HOME", "h"),
           ("WIN_AGENT_HOME", "h")]).proc v.name).isSome = true) :=
  setVars_publishes_five true "p" "g" "h" "c" (fun s => s) (fun s => s)
    (fun _ => false) (fun _ => false) ⟨[], []⟩
    (EnvStore.mk
      [("SSH_AUTH_SOCK", "p"), ("WSL_GNUPG_HOME", "g"), ("WIN_GNUPG_HOME", "g"),
       ("WSL_AGENT_HOME", "h"), ("WIN_AGENT_HOME", "h")]
      [("WSL_GNUPG_HOME", "g"), ("WIN_GNUPG_HOME", "g"), ("WSL_AGENT_HOME", "h"),
       ("WIN_AGENT_HOME", "h")])
    [{ initialized := true, name := "SSH_AUTH_SOCK", value := "p", register := false,
       translate := false },
     { initialized := true, name := "WSL_GNUPG_HOME", value := "g", register := true,
       translate := true },
     { initialized := true, name := "WIN_GNUPG_HOME", value := "g", register := true,
       translate := false },
     { initialized := true, name := "WSL_AGENT_HOME", value := "h", register := true,
       translate := true },
     { initialized := true, name := "WIN_AGENT_HOME", value := "h", register := true,
       translate := false }]
    rfl

/-- Claim C5: the value published under `SSH_AUTH_SOCK` is selected by the
compatibility mode: for a GUI.SSH mode equal to cygwin case-insensitively it
is the Cygwin SSH connector's socket path, otherwise the configured native
pipe name. -/
theorem setVars_ssh_sock_value (mode p g h c : String) (pw : String → String) :
    (((mkVars (setVarsNative mode) p g h c pw).map fun v => v.name).head? =
      some envPipeName) ∧
    (((mkVars (setVarsNative mode) p g h c pw).map fun v => v.value).head? =
      some (if equalFold mode "cygwin" then c else p)) := by
  refine ⟨rfl, ?_⟩
  cases heq : equalFold mode "cygwin" <;>
    simp [mkVars, setVarsNative, heq]

/-! ## Claim theorems: `run` serve order and teardown -/

theorem serveAll_ok (ks : List ConnectorKind) :
    serveAll (fun _ => false) ks = (none, ks.map Ev.serve, ks) := by
  induction ks with
  | nil => rfl
  | cons k ks ih => simp [serveAll, ih]

theorem closeAll_fresh (ks : List ConnectorKind) :
    ∀ closed : List ConnectorKind, (∀ k ∈ ks, k ∉ closed) → ks.Nodup →
      closeAll closed ks = (ks.map Ev.close, ks.reverse ++ closed) := by
  induction ks with
  | nil =>
    intro closed _ _
    rfl
  | cons k ks ih =>
    intro closed hfresh hnodup
    have hk : k ∉ closed := hfresh k (by simp)
    have h1 : ∀ x ∈ ks, x ∉ k :: closed := by
      intro x hx hmem
      rcases List.mem_cons.mp hmem with h | h
      · exact (List.nodup_cons.mp hnodup).1 (h ▸ hx)
      · exact hfresh x (List.mem_cons_of_mem k hx) h
    have h2 : ks.Nodup := (List.nodup_cons.mp hnodup).2
    simp only [closeAll]
    rw [if_neg hk, ih (k :: closed) h1 h2]
    simp

theorem closeAll_noop (ks : List ConnectorKind) :
    ∀ closed : List ConnectorKind, (∀ k ∈ ks, k ∈ closed) →
      closeAll closed ks = ([], closed) := by
  induction ks with
  | nil =>
    intro closed _
    rfl
  | cons k ks ih =>
    intro closed h
    simp only [closeAll]
    rw [if_pos (h k (by simp)), ih closed (fun x hx => h x (by simp [hx]))]

theorem serveKinds_nodup (cfg : RunCfg) : (serveKinds cfg).Nodup := by
  by_cases h : cfg.extraPortNum ≠ 0
  · simp only [serveKinds, if_pos h]
    decide
  · simp only [serveKinds, if_neg h]
    decide

/-- Claim C3: on teardown after a successful startup, every connector is
closed in exact reverse of the order in which it was served — when the
systray loop ends, `onExit` calls `gpgAgent.Stop()`, which closes the
connectors in reverse order — and the environment revocation, when
publication was enabled, happens only after all connectors are closed: the
deferred cleaner runs once the systray loop has returned, and the remaining
deferred `Close` calls find every connector already closed and are
idempotent no-ops. -/
theorem run_stop_closes_then_revokes (cfg : RunCfg) :
    runGo cfg (fun _ => false) false false =
      (RunResult.ok,
       (serveKinds cfg).map Ev.serve ++
         (if cfg.setEnv then [Ev.applyEnv] else []) ++
         [Ev.start, Ev.systrayRun] ++
         ((serveKinds cfg).map Ev.close).reverse ++
         (if cfg.setEnv then [Ev.revokeEnv] else [])) := by
  have hnodup : (serveKinds cfg).reverse.Nodup :=
    List.nodup_reverse.mpr (serveKinds_nodup cfg)
  have h1 : closeAll [] (serveKinds cfg).reverse =
      ((serveKinds cfg).reverse.map Ev.close,
        (serveKinds cfg).reverse.reverse ++ []) :=
    closeAll_fresh (serveKinds cfg).reverse [] (by simp) hnodup
  have h1' : (serveKinds cfg).reverse.reverse ++ [] = serveKinds cfg := by simp
  rw [h1'] at h1
  have h2 : closeAll (serveKinds cfg) (serveKinds cfg).reverse =
      ([], serveKinds cfg) :=
    closeAll_noop (serveKinds cfg).reverse (serveKinds cfg)
      (fun k hk => List.mem_reverse.mp hk)
  by_cases he : cfg.setEnv = true
  · simp [runGo, serveAll_ok, he, h1, h2, List.map_reverse]
  · have he2 : cfg.setEnv = false := by simpa using he
    simp [runGo, serveAll_ok, he2, h1, h2, List.map_reverse]

theorem serveAll_firstFail (sf : ConnectorKind → Bool) (ks : List ConnectorKind) :
    ∀ (m : Nat) (hm : m < ks.length),
      sf (ks.get ⟨m, hm⟩) = true →
      (∀ j (hj : j < ks.length), j < m → sf (ks.get ⟨j, hj⟩) = false) →
      serveAll sf ks =
        (some (ks.get ⟨m, hm⟩), (ks.take (m + 1)).map Ev.serve,
          ks.take m) := by
  induction ks with
  | nil =>
    intro m hm
    exact absurd hm (by simp)
  | cons k ks ih =>
    intro m hm hfail hok
    match m with
    | 0 =>
      simp only [List.get] at hfail
      simp [serveAll, hfail]
    | Nat.succ m2 =>
      have hk : sf k = false := hok 0 (by simp) (Nat.succ_pos m2)
      have hm2 : m2 < ks.length := Nat.lt_of_succ_lt_succ hm
      have hfail2 : sf (ks.get ⟨m2, hm2⟩) = true := by simpa using hfail
      have hok2 : ∀ j (hj : j < ks.length), j < m2 → sf (ks.get ⟨j, hj⟩) = false := by
        intro j hj hjm
        have := hok (j + 1) (by simpa using Nat.succ_lt_succ hj) (Nat.succ_lt_succ hjm)
        simpa using this
      simp [serveAll, hk, ih m2 hm2 hfail2 hok2]

/-- Claim C4: startup serves the enabled connectors in the fixed configured
order (Cygwin SSH socket, SSH pipe, SSH Unix socket, extra TCP port only
when its configured port is nonzero, gpg-agent socket, extra gpg-agent
socket); the first Serve error is propagated to the caller and no later
connector is served (the trace shows serve attempts only up to the failing
one, then the deferred closes of the already-served connectors). -/
theorem run_serve_order_first_error (cfg : RunCfg) (sf : ConnectorKind → Bool)
    (envFail startFail : Bool) (m : Nat) (hm : m < (serveKinds cfg).length)
    (hfail : sf ((serveKinds cfg).get ⟨m, hm⟩) = true)
    (hok : ∀ j (hj : j < (serveKinds cfg).length), j < m →
      sf ((serveKinds cfg).get ⟨j, hj⟩) = false) :
    serveKinds cfg =
      [ConnectorKind.sockAgentCygwinSSH, ConnectorKind.pipeSSH,
        ConnectorKind.sockAgentSSH] ++
        (if cfg.extraPortNum ≠ 0 then [ConnectorKind.extraPort] else []) ++
        [ConnectorKind.sockAgent, ConnectorKind.sockAgentExtra] ∧
    runGo cfg sf envFail startFail =
      (RunResult.serveErr ((serveKinds cfg).get ⟨m, hm⟩),
       ((serveKinds cfg).take (m + 1)).map Ev.serve ++
         (((serveKinds cfg).take m).map Ev.close).reverse) := by
  refine ⟨rfl, ?_⟩
  have hnodup : ((serveKinds cfg).take m).reverse.Nodup :=
    List.nodup_reverse.mpr
      (List.Nodup.sublist (List.take_sublist m _) (serveKinds_nodup cfg))
  have h1 : closeAll [] ((serveKinds cfg).take m).reverse =
      (((serveKinds cfg).take m).reverse.map Ev.close,
        ((serveKinds cfg).take m).reverse.reverse ++ []) :=
    closeAll_fresh ((serveKinds cfg).take m).reverse [] (by simp) hnodup
  simp [runGo, serveAll_firstFail sf (serveKinds cfg) m hm hfail hok, h1,
    List.map_reverse]

/-- Witness for C4 at a concrete input: with the extra TCP port enabled the
fourth connector's Serve fails; the error names it and the later connectors
are never served. -/
theorem run_serve_order_first_error_witness :
    serveKinds ⟨7, true, "x"⟩ =
      [ConnectorKind.sockAgentCygwinSSH, ConnectorKind.pipeSSH,
        ConnectorKind.sockAgentSSH] ++
        (if (7 : Nat) ≠ 0 then [ConnectorKind.extraPort] else []) ++
        [ConnectorKind.sockAgent, ConnectorKind.sockAgentExtra] ∧
    runGo ⟨7, true, "x"⟩ (fun k => k == ConnectorKind.extraPort) false false =
      (RunResult.serveErr ((serveKinds ⟨7, true, "x"⟩).get ⟨3, by decide⟩),
       ((serveKinds ⟨7, true, "x"⟩).take 4).map Ev.serve ++
         (((serveKinds ⟨7, true, "x"⟩).take 3).map Ev.close).reverse) :=
  run_serve_order_first_error ⟨7, true, "x"⟩ (fun k => k == ConnectorKind.extraPort)
    false false 3 (by decide) (by decide) (by decide)

/-! ## Claim theorem: session events -/

/-- Claim C8: a lock event invokes exactly `SessionLock`, an unlock event
invokes exactly `SessionUnlock`, and every other session event kind invokes
neither and leaves the lock state unchanged. -/
theorem onSession_dispatch (locked : Bool) (code : Nat) :
    onSession SessionEvent.sesLock = [AgentCall.sessionLock] ∧
    onSession SessionEvent.sesUnlock = [AgentCall.sessionUnlock] ∧
    onSession (SessionEvent.other code) = [] ∧
    onSessionLock locked SessionEvent.sesLock = true ∧
    onSessionLock locked SessionEvent.sesUnlock = false ∧
    onSessionLock locked (SessionEvent.other code) = locked :=
  ⟨rfl, rfl, rfl, rfl, rfl, rfl⟩

/-! ## Claim theorem: the emulated-socket handshake -/

theorem foldl_and_eq (l : List (Nat × Nat)) :
    ∀ acc : Bool,
      l.foldl (fun acc p => acc && (p.1 == p.2)) acc =
        (acc && l.all fun p => p.1 == p.2) := by
  induction l with
  | nil =>
    intro acc
    simp
  | cons p l ih =>
    intro acc
    simp [List.foldl_cons, ih, Bool.and_assoc]

theorem constantTimeCompare_spec (a b : List Nat) :
    constantTimeCompare a b =
      ((a.length == b.length) && ((a.zip b).all fun p => p.1 == p.2)) := by
  unfold constantTimeCompare
  rw [foldl_and_eq]
  simp

theorem constantTimeCompare_eq_beq (a : List Nat) :
    ∀ b : List Nat, constantTimeCompare a b = (a == b) := by
  induction a with
  | nil =>
    intro b
    cases b <;> simp [constantTimeCompare_spec]
  | cons x xs ih =>
    intro b
    cases b with
    | nil => simp [constantTimeCompare_spec]
    | cons y ys =>
      rw [constantTimeCompare_spec, List.zip_cons_cons, List.all_cons]
      have hl : ((x :: xs).length == (y :: ys).length : Bool) =
          (xs.length == ys.length) := by
        simp [Nat.beq]
      rw [hl]
      have hbeq : ((x :: xs : List Nat) == (y :: ys)) = ((x == y) && (xs == ys)) := rfl
      have hih := ih ys
      rw [constantTimeCompare_spec] at hih
      rw [hbeq, ← hih, Bool.and_left_comm]

theorem constantTimeCompare_iff (a b : List Nat) :
    constantTimeCompare a b = true ↔ a = b := by
  rw [constantTimeCompare_eq_beq]
  exact beq_iff_eq

/-- Claim C7: a client on the emulated-socket transport that does not send
back the published secret (mismatch or timeout) never reaches the Relaying
state — the session is closed with no relay started; the comparison accepts
exactly a byte-for-byte equal echo; and each concurrent session's outcome
depends only on its own input, so the failure has no effect on any other
session. -/
theorem handshake_reject (secret : List Nat) (received : List (Option (List Nat)))
    (i : Nat) (bs : Option (List Nat))
    (hget : received[i]? = some bs)
    (hbad : bs ≠ some secret) :
    (stepSessions secret received)[i]? = some SessionState.closed ∧
    (stepSessions secret received)[i]? ≠ some SessionState.relaying ∧
    (∀ bs2, constantTimeCompare bs2 secret = true ↔ bs2 = secret) ∧
    (∀ j : Nat, (stepSessions secret received)[j]? =
      (received[j]?).map (handshakeStep secret)) := by
  have hmap : ∀ j : Nat, (stepSessions secret received)[j]? =
      (received[j]?).map (handshakeStep secret) := by
    intro j
    simp [stepSessions]
  have hclosed : handshakeStep secret bs = SessionState.closed := by
    cases bs with
    | none => rfl
    | some l =>
      have hne : ¬ l = secret := fun hh => hbad (by rw [hh])
      have hfalse : constantTimeCompare l secret = false := by
        by_cases hc : constantTimeCompare l secret = true
        · exact absurd ((constantTimeCompare_iff l secret).mp hc) hne
        · simpa using hc
      simp [handshakeStep, hfalse]
  refine ⟨?_, ?_, fun bs2 => constantTimeCompare_iff bs2 secret, hmap⟩
  · rw [hmap i, hget]
    simp [hclosed]
  · rw [hmap i, hget]
    simp [hclosed]

/-- Witness for C7 at a concrete input: with secret `[1, 2]`, the second of
three sessions echoes the wrong bytes and is closed; the others are
unaffected. -/
theorem handshake_reject_witness :
    (stepSessions [1, 2] [some [1, 2], some [9, 9], none])[1]? =
      some SessionState.closed ∧
    (stepSessions [1, 2] [some [1, 2], some [9, 9], none])[1]? ≠
      some SessionState.relaying ∧
    (∀ bs2, constantTimeCompare bs2 [1, 2] = true ↔ bs2 = [1, 2]) ∧
    (∀ j : Nat, (stepSessions [1, 2] [some [1, 2], some [9, 9], none])[j]? =
      (([some [1, 2], some [9, 9], none] : List (Option (List Nat)))[j]?).map
        (handshakeStep [1, 2])) :=
  handshake_reject [1, 2] [some [1, 2], some [9, 9], none] 1 (some [9, 9])
    rfl (by decide)

/-! ## Claim theorem: clipboard key validation -/

theorem clipScan_valid (keys : List String) :
    ∀ base : Nat, (clipScan base keys).2 = keys.filterMap validKey := by
  induction keys with
  | nil =>
    intro base
    rfl
  | cons s rest ih =>
    intro base
    simp only [clipScan]
    cases hv : validKey s <;> simp [List.filterMap_cons, hv, ih (base + 1)]

theorem clipScan_bad (keys : List String) :
    ∀ (base i : Nat),
      (i ∈ (clipScan base keys).1 ↔
        ∃ j, ∃ hj : j < keys.length,
          i = base + j ∧ validKey (keys.get ⟨j, hj⟩) = none) := by
  induction keys with
  | nil =>
    intro base i
    simp [clipScan]
  | cons s rest ih =>
    intro base i
    simp only [clipScan]
    cases hv : validKey s with
    | none =>
      constructor
      · intro hmem
        rcases List.mem_cons.mp hmem with h | h
        · exact ⟨0, by simp, by omega, by simpa using hv⟩
        · rcases (ih (base + 1) i).mp h with ⟨j, hj, hij, hP⟩
          exact ⟨j + 1, by simpa using Nat.succ_lt_succ hj, by omega, by simpa using hP⟩
      · rintro ⟨j, hj, hij, hP⟩
        match j with
        | 0 =>
          have : i = base := by omega
          simp [this]
        | Nat.succ j2 =>
          have hj2 : j2 < rest.length := by simpa using Nat.lt_of_succ_lt_succ hj
          have hP2 : validKey (rest.get ⟨j2, hj2⟩) = none := by simpa using hP
          have : i ∈ (clipScan (base + 1) rest).1 :=
            (ih (base + 1) i).mpr ⟨j2, hj2, by omega, hP2⟩
          simp [this]
    | some pk =>
      constructor
      · intro hmem
        have h : i ∈ (clipScan (base + 1) rest).1 := by simpa using hmem
        rcases (ih (base + 1) i).mp h with ⟨j, hj, hij, hP⟩
        exact ⟨j + 1, by simpa using Nat.succ_lt_succ hj, by omega, by simpa using hP⟩
      · rintro ⟨j, hj, hij, hP⟩
        match j with
        | 0 =>
          have : validKey s = none := by simpa using hP
          rw [hv] at this
          exact Option.noConfusion this
        | Nat.succ j2 =>
          have hj2 : j2 < rest.length := by simpa using Nat.lt_of_succ_lt_succ hj
          have hP2 : validKey (rest.get ⟨j2, hj2⟩) = none := by simpa using hP
          have : i ∈ (clipScan (base + 1) rest).1 :=
            (ih (base + 1) i).mpr ⟨j2, hj2, by omega, hP2⟩
          simpa using this

/-- Claim C10: clipboard-service startup skips exactly the configured keys
whose hex decoding fails or whose decoded length is not 32 bytes (their
indices are logged and the loop continues), keeps the valid keys in order,
and starts the clipboard server exactly when at least one valid key
remains. -/
theorem clipServe_key_filtering (keys : List String) :
    (clipScan 0 keys).2 = keys.filterMap validKey ∧
    (clipServeStarts keys = true ↔ ∃ s ∈ keys, (validKey s).isSome = true) ∧
    (∀ i : Nat, i ∈ (clipScan 0 keys).1 ↔
      ∃ hj : i < keys.length, validKey (keys.get ⟨i, hj⟩) = none) := by
  refine ⟨clipScan_valid keys 0, ?_, ?_⟩
  · unfold clipServeStarts
    rw [clipScan_valid keys 0]
    constructor
    · intro h
      have h2 : keys.filterMap validKey ≠ [] := by
        intro hnil
        rw [hnil] at h
        simp at h
      rcases List.exists_mem_of_ne_nil _ h2 with ⟨b, hb⟩
      rcases List.mem_filterMap.mp hb with ⟨a, ha, hfa⟩
      exact ⟨a, ha, by simp [hfa]⟩
    · rintro ⟨s, hs, hsome⟩
      rcases Option.isSome_iff_exists.mp hsome with ⟨pk, hpk⟩
      have h2 : keys.filterMap validKey ≠ [] := by
        intro hnil
        have := List.filterMap_eq_nil_iff.mp hnil s hs
        rw [hpk] at this
        exact Option.noConfusion this
      have h1 : keys ≠ [] := by
        rintro rfl
        simp at hs
      simp [List.isEmpty_iff, h1, h2]
  · intro i
    constructor
    · intro h
      rcases (clipScan_bad keys 0 i).mp h with ⟨j, hj, hij, hP⟩
      have hji : j = i := by omega
      subst hji
      exact ⟨hj, hP⟩
    · rintro ⟨hj, hP⟩
      exact (clipScan_bad keys 0 i).mpr ⟨i, hj, by omega, hP⟩

end WinGpgAgent
